import Mathlib

/-!
Verification development for the inline-variable-or-function subsystem of the
abracadabra refactoring toolkit, together with its merge-with-previous-if
helper.  The definitions below are a shallow embedding of
`src/refactorings/inline-variable-or-function/find-inlinable-code.ts` and
`src/refactorings/merge-with-previous-if-statement/merge-with-previous-if-statement.ts`.
External collaborators that the repository consumes from modules not present
here (the `ast` helpers, the editor `Selection` type, the export-name lookup,
and the function-inliner orchestration) are modelled from the specification's
interface description; each such definition is marked `Modelled from the
spec:` in its doc comment.
-/

/-- A line/column position in the source text. -/
structure Pos where
  line : Nat
  column : Nat
deriving DecidableEq, Repr

/-- Lexicographic order on positions, as a boolean: strictly before. -/
def Pos.isBefore (p q : Pos) : Bool :=
  p.line < q.line || (p.line == q.line && p.column < q.column)

/-- Lexicographic order on positions, as a boolean: before or equal. -/
def Pos.isBeforeOrEq (p q : Pos) : Bool :=
  p.isBefore q || p == q

/-- A source location of a syntax node: its start and end positions
(`loc.start` / `loc.end` in the source; `end` is a Lean keyword so the second
field is named `finish`). -/
structure Loc where
  start : Pos
  finish : Pos
deriving DecidableEq, Repr

/-- Modelled from the spec: the editor's selection/range abstraction (§6).
A text range given by a start and an end position. -/
structure Selection where
  start : Pos
  finish : Pos
deriving DecidableEq, Repr

/-- Modelled from the spec: a zero-width cursor selection at the given
line/column (`Selection.cursorAt`). -/
def Selection.cursorAt (line column : Nat) : Selection :=
  { start := ⟨line, column⟩, finish := ⟨line, column⟩ }

/-- Modelled from the spec: conversion from a syntax node's location to a
range value (`Selection.fromAST`). -/
def Selection.fromAST (loc : Loc) : Selection :=
  { start := loc.start, finish := loc.finish }

/-- Modelled from the spec: containment test — does this selection lie inside
the given location. -/
def Selection.isInsideLoc (sel : Selection) (loc : Loc) : Bool :=
  loc.start.isBeforeOrEq sel.start && sel.finish.isBeforeOrEq loc.finish

/-- Modelled from the spec: extend this range's start to the start of
another range (`extendStartToStartOf`). -/
def Selection.extendStartToStartOf (sel other : Selection) : Selection :=
  { start := other.start, finish := sel.finish }

/-- Modelled from the spec: extend this range's start to the end of another
range (`extendStartToEndOf`). -/
def Selection.extendStartToEndOf (sel other : Selection) : Selection :=
  { start := other.finish, finish := sel.finish }

/-- Modelled from the spec: extend this range's end to the start of another
range (`extendEndToStartOf`). -/
def Selection.extendEndToStartOf (sel other : Selection) : Selection :=
  { start := sel.start, finish := other.start }

/-- Modelled from the spec: extend this range's start to the start of its
line (`extendToStartOfLine`). -/
def Selection.extendToStartOfLine (sel : Selection) : Selection :=
  { start := ⟨sel.start.line, 0⟩, finish := sel.finish }

/-- Modelled from the spec: extend this range's end to the start of the next
line (`extendToStartOfNextLine`). -/
def Selection.extendToStartOfNextLine (sel : Selection) : Selection :=
  { start := sel.start, finish := ⟨sel.finish.line + 1, 0⟩ }

/-- Syntax-tree nodes.  The constructors cover the node kinds the
inline-variable-or-function subsystem inspects: identifiers, literals,
`this`, member expressions, object properties, rest elements,
object/array patterns, unary/assignment/call expressions, variable
declarators and declarations, function declarations, blocks, and a named
export list (the spec's export-name lookup, §6).  Every node carries its
source location. -/
inductive Node where
  | identifier (name : String) (loc : Loc)
  | numericLiteral (value : Nat) (loc : Loc)
  | stringLiteral (value : String) (loc : Loc)
  | thisExpression (loc : Loc)
  | memberExpression (object property : Node) (computed : Bool) (loc : Loc)
  | objectProperty (key value : Node) (computed shorthand : Bool) (loc : Loc)
  | restElement (argument : Node) (loc : Loc)
  | objectPattern (properties : List Node) (loc : Loc)
  | arrayPattern (elements : List (Option Node)) (loc : Loc)
  | unaryExpression (argument : Node) (loc : Loc)
  | assignmentExpression (left right : Node) (loc : Loc)
  | callExpression (callee : Node) (args : List Node) (loc : Loc)
  | variableDeclarator (id : Node) (init : Option Node) (loc : Loc)
  | variableDeclaration (declarations : List Node) (loc : Loc)
  | functionDeclaration (id : Node) (params : List Node) (body : List Node) (loc : Loc)
  | blockStatement (body : List Node) (loc : Loc)
  | exportNamed (names : List String) (loc : Loc)
deriving Repr

/-- The source location of a node (`node.loc`; every modelled node is
selectable in the sense of `ast.isSelectableNode`). -/
def Node.loc : Node → Loc
  | .identifier _ l => l
  | .numericLiteral _ l => l
  | .stringLiteral _ l => l
  | .thisExpression l => l
  | .memberExpression _ _ _ l => l
  | .objectProperty _ _ _ _ l => l
  | .restElement _ l => l
  | .objectPattern _ l => l
  | .arrayPattern _ l => l
  | .unaryExpression _ l => l
  | .assignmentExpression _ _ l => l
  | .callExpression _ _ l => l
  | .variableDeclarator _ _ l => l
  | .variableDeclaration _ l => l
  | .functionDeclaration _ _ _ l => l
  | .blockStatement _ l => l
  | .exportNamed _ l => l

/-- Containment test against a node's location (`selection.isInsideNode`). -/
def Selection.isInsideNode (sel : Selection) (n : Node) : Bool :=
  sel.isInsideLoc n.loc

/-- Type test `ast.isIdentifier`. -/
def isIdentifier : Node → Bool
  | .identifier _ _ => true
  | _ => false

/-- Type test `ast.isNumericLiteral`. -/
def isNumericLiteral : Node → Bool
  | .numericLiteral _ _ => true
  | _ => false

/-- Type test `ast.isStringLiteral`. -/
def isStringLiteral : Node → Bool
  | .stringLiteral _ _ => true
  | _ => false

/-- Type test `ast.isThisExpression`. -/
def isThisExpression : Node → Bool
  | .thisExpression _ => true
  | _ => false

/-- Type test `ast.isMemberExpression`. -/
def isMemberExpression : Node → Bool
  | .memberExpression _ _ _ _ => true
  | _ => false

/-- Type test `ast.isObjectProperty` (also `isSelectableObjectProperty`:
every modelled node carries a location, so selectability is automatic). -/
def isObjectProperty : Node → Bool
  | .objectProperty _ _ _ _ _ => true
  | _ => false

/-- Type test `ast.isRestElement`. -/
def isRestElement : Node → Bool
  | .restElement _ _ => true
  | _ => false

/-- Type test `ast.isObjectPattern`. -/
def isObjectPattern : Node → Bool
  | .objectPattern _ _ => true
  | _ => false

/-- Type test `ast.isArrayPattern`. -/
def isArrayPattern : Node → Bool
  | .arrayPattern _ _ => true
  | _ => false

/-- Type test `ast.isUnaryExpression`. -/
def isUnaryExpression : Node → Bool
  | .unaryExpression _ _ => true
  | _ => false

/-- Type test `ast.isAssignmentExpression`. -/
def isAssignmentExpression : Node → Bool
  | .assignmentExpression _ _ _ => true
  | _ => false

/-- Type test `ast.isFunctionDeclaration`. -/
def isFunctionDeclaration : Node → Bool
  | .functionDeclaration _ _ _ _ => true
  | _ => false

/-- Type test `ast.isVariableDeclaration`. -/
def isVariableDeclarationNode : Node → Bool
  | .variableDeclaration _ _ => true
  | _ => false

mutual
/-- Full structural equality on nodes, locations included.  This models
JavaScript reference equality (`===`) between nodes of one parse tree: two
distinct nodes of a real parse tree never agree on every field including
their source locations. -/
def Node.beq : Node → Node → Bool
  | .identifier a la, .identifier b lb => a == b && la == lb
  | .numericLiteral a la, .numericLiteral b lb => a == b && la == lb
  | .stringLiteral a la, .stringLiteral b lb => a == b && la == lb
  | .thisExpression la, .thisExpression lb => la == lb
  | .memberExpression o1 p1 c1 la, .memberExpression o2 p2 c2 lb =>
      Node.beq o1 o2 && Node.beq p1 p2 && c1 == c2 && la == lb
  | .objectProperty k1 v1 c1 s1 la, .objectProperty k2 v2 c2 s2 lb =>
      Node.beq k1 k2 && Node.beq v1 v2 && c1 == c2 && s1 == s2 && la == lb
  | .restElement a1 la, .restElement a2 lb => Node.beq a1 a2 && la == lb
  | .objectPattern ps1 la, .objectPattern ps2 lb => Node.beqList ps1 ps2 && la == lb
  | .arrayPattern es1 la, .arrayPattern es2 lb => Node.beqOptionList es1 es2 && la == lb
  | .unaryExpression a1 la, .unaryExpression a2 lb => Node.beq a1 a2 && la == lb
  | .assignmentExpression l1 r1 la, .assignmentExpression l2 r2 lb =>
      Node.beq l1 l2 && Node.beq r1 r2 && la == lb
  | .callExpression f1 as1 la, .callExpression f2 as2 lb =>
      Node.beq f1 f2 && Node.beqList as1 as2 && la == lb
  | .variableDeclarator i1 n1 la, .variableDeclarator i2 n2 lb =>
      Node.beq i1 i2 && Node.beqOption n1 n2 && la == lb
  | .variableDeclaration ds1 la, .variableDeclaration ds2 lb =>
      Node.beqList ds1 ds2 && la == lb
  | .functionDeclaration i1 ps1 b1 la, .functionDeclaration i2 ps2 b2 lb =>
      Node.beq i1 i2 && Node.beqList ps1 ps2 && Node.beqList b1 b2 && la == lb
  | .blockStatement b1 la, .blockStatement b2 lb => Node.beqList b1 b2 && la == lb
  | .exportNamed n1 la, .exportNamed n2 lb => n1 == n2 && la == lb
  | _, _ => false
termination_by structural a => a

/-- List version of `Node.beq`. -/
def Node.beqList : List Node → List Node → Bool
  | [], [] => true
  | x :: xs, y :: ys => Node.beq x y && Node.beqList xs ys
  | _, _ => false
termination_by structural a => a

/-- Optional-node version of `Node.beq`. -/
def Node.beqOption : Option Node → Option Node → Bool
  | none, none => true
  | some x, some y => Node.beq x y
  | _, _ => false
termination_by structural a => a

/-- Optional-node-list version of `Node.beq`. -/
def Node.beqOptionList : List (Option Node) → List (Option Node) → Bool
  | [], [] => true
  | x :: xs, y :: ys => Node.beqOption x y && Node.beqOptionList xs ys
  | _, _ => false
termination_by structural a => a
end

mutual
/-- Modelled from the spec: the syntax-tree provider's structural-equality
test between two nodes (`ast.areEqual`, §6) — equality of shape and names,
ignoring source locations. -/
def areEqual : Node → Node → Bool
  | .identifier a _, .identifier b _ => a == b
  | .numericLiteral a _, .numericLiteral b _ => a == b
  | .stringLiteral a _, .stringLiteral b _ => a == b
  | .thisExpression _, .thisExpression _ => true
  | .memberExpression o1 p1 c1 _, .memberExpression o2 p2 c2 _ =>
      areEqual o1 o2 && areEqual p1 p2 && c1 == c2
  | .objectProperty k1 v1 c1 s1 _, .objectProperty k2 v2 c2 s2 _ =>
      areEqual k1 k2 && areEqual v1 v2 && c1 == c2 && s1 == s2
  | .restElement a1 _, .restElement a2 _ => areEqual a1 a2
  | .objectPattern ps1 _, .objectPattern ps2 _ => areEqualList ps1 ps2
  | .arrayPattern es1 _, .arrayPattern es2 _ => areEqualOptionList es1 es2
  | .unaryExpression a1 _, .unaryExpression a2 _ => areEqual a1 a2
  | .assignmentExpression l1 r1 _, .assignmentExpression l2 r2 _ =>
      areEqual l1 l2 && areEqual r1 r2
  | .callExpression f1 as1 _, .callExpression f2 as2 _ =>
      areEqual f1 f2 && areEqualList as1 as2
  | .variableDeclarator i1 n1 _, .variableDeclarator i2 n2 _ =>
      areEqual i1 i2 && areEqualOption n1 n2
  | .variableDeclaration ds1 _, .variableDeclaration ds2 _ => areEqualList ds1 ds2
  | .functionDeclaration i1 ps1 b1 _, .functionDeclaration i2 ps2 b2 _ =>
      areEqual i1 i2 && areEqualList ps1 ps2 && areEqualList b1 b2
  | .blockStatement b1 _, .blockStatement b2 _ => areEqualList b1 b2
  | .exportNamed n1 _, .exportNamed n2 _ => n1 == n2
  | _, _ => false
termination_by structural a => a

/-- List version of `areEqual`. -/
def areEqualList : List Node → List Node → Bool
  | [], [] => true
  | x :: xs, y :: ys => areEqual x y && areEqualList xs ys
  | _, _ => false
termination_by structural a => a

/-- Optional-node version of `areEqual`. -/
def areEqualOption : Option Node → Option Node → Bool
  | none, none => true
  | some x, some y => areEqual x y
  | _, _ => false
termination_by structural a => a

/-- Optional-node-list version of `areEqual`. -/
def areEqualOptionList : List (Option Node) → List (Option Node) → Bool
  | [], [] => true
  | x :: xs, y :: ys => areEqualOption x y && areEqualOptionList xs ys
  | _, _ => false
termination_by structural a => a
end

mutual
/-- Modelled from the spec: `ast.traverseNode` (§6) — visit every node of a
subtree.  Each visited node is paired with its ancestor chain (outermost
first, immediate parent last), which is how `enter(node, ancestors)` exposes
it to the reference-collection pass. -/
def traverseNode : Node → List Node → List (Node × List Node)
  | n@(.identifier _ _), anc => [(n, anc)]
  | n@(.numericLiteral _ _), anc => [(n, anc)]
  | n@(.stringLiteral _ _), anc => [(n, anc)]
  | n@(.thisExpression _), anc => [(n, anc)]
  | n@(.memberExpression o p _ _), anc =>
      (n, anc) :: (traverseNode o (anc ++ [n]) ++ traverseNode p (anc ++ [n]))
  | n@(.objectProperty k v _ _ _), anc =>
      (n, anc) :: (traverseNode k (anc ++ [n]) ++ traverseNode v (anc ++ [n]))
  | n@(.restElement a _), anc => (n, anc) :: traverseNode a (anc ++ [n])
  | n@(.objectPattern ps _), anc => (n, anc) :: traverseNodeList ps (anc ++ [n])
  | n@(.arrayPattern es _), anc => (n, anc) :: traverseNodeOptionList es (anc ++ [n])
  | n@(.unaryExpression a _), anc => (n, anc) :: traverseNode a (anc ++ [n])
  | n@(.assignmentExpression l r _), anc =>
      (n, anc) :: (traverseNode l (anc ++ [n]) ++ traverseNode r (anc ++ [n]))
  | n@(.callExpression f as _), anc =>
      (n, anc) :: (traverseNode f (anc ++ [n]) ++ traverseNodeList as (anc ++ [n]))
  | n@(.variableDeclarator i o _), anc =>
      (n, anc) :: (traverseNode i (anc ++ [n]) ++ traverseNodeOption o (anc ++ [n]))
  | n@(.variableDeclaration ds _), anc => (n, anc) :: traverseNodeList ds (anc ++ [n])
  | n@(.functionDeclaration i ps b _), anc =>
      (n, anc) ::
        (traverseNode i (anc ++ [n]) ++ traverseNodeList ps (anc ++ [n]) ++
          traverseNodeList b (anc ++ [n]))
  | n@(.blockStatement b _), anc => (n, anc) :: traverseNodeList b (anc ++ [n])
  | n@(.exportNamed _ _), anc => [(n, anc)]
termination_by structural n => n

/-- Traversal of a list of child nodes. -/
def traverseNodeList : List Node → List Node → List (Node × List Node)
  | [], _ => []
  | x :: xs, anc => traverseNode x anc ++ traverseNodeList xs anc
termination_by structural ns => ns

/-- Traversal of an optional child node. -/
def traverseNodeOption : Option Node → List Node → List (Node × List Node)
  | none, _ => []
  | some x, anc => traverseNode x anc
termination_by structural o => o

/-- Traversal of a list of optional child nodes (array-pattern elements;
elided slots are skipped). -/
def traverseNodeOptionList : List (Option Node) → List Node → List (Node × List Node)
  | [], _ => []
  | none :: xs, anc => traverseNodeOptionList xs anc
  | some x :: xs, anc => traverseNode x anc ++ traverseNodeOptionList xs anc
termination_by structural os => os
end

/-- The name of an identifier node (empty for non-identifiers; callers guard
with `isIdentifier`). -/
def identifierName : Node → String
  | .identifier name _ => name
  | _ => ""

/-- Modelled from the spec: the export-name lookup (§6) — given a scope,
the list of identifier names re-exported from it (`findExportedIdNames`,
whose defining module is not part of the sources here). -/
def findExportedIdNames (scope : Node) : List String :=
  (traverseNode scope []).flatMap fun e =>
    match e.1 with
    | .exportNamed names _ => names
    | _ => []

/-- Modelled from the spec: does this statement declare the given binding
name anew — a variable declaration one of whose declarators binds an
identifier structurally equal to `id` at a location other than the binding's
own declaration site (§4.1, glossary entry for shadowing). -/
def declaresIdentifierAnew (id : Node) (statement : Node) : Bool :=
  match statement with
  | .variableDeclaration declarations _ =>
      declarations.any fun d =>
        match d with
        | .variableDeclarator declaredId _ _ =>
            areEqual id declaredId &&
              !((Selection.fromAST declaredId.loc).isInsideNode id)
        | _ => false
  | _ => false

/-- Modelled from the spec: does this node open a scope that redeclares the
binding `id` — a function declaration one of whose parameters is the same
name, or a function body / block whose own statements declare the name anew
(§4.1: "a more deeply nested scope that redeclares the same name"). -/
def redeclaresIdentifier (id : Node) (scopeNode : Node) : Bool :=
  match scopeNode with
  | .functionDeclaration _ params body _ =>
      params.any (fun p => areEqual id p) || body.any (declaresIdentifierAnew id)
  | .blockStatement body _ => body.any (declaresIdentifierAnew id)
  | _ => false

/-- Modelled from the spec: `ast.isShadowIn` — the occurrence whose ancestor
chain is `ancestors` is shadowed when some enclosing scope redeclares the
binding's name (§4.1 rule (a)). -/
def isShadowIn (id : Node) (ancestors : List Node) : Bool :=
  ancestors.any (redeclaresIdentifier id)

/-- One reference occurrence recorded by the reference-collection pass: its
location plus the context flags the substitution step needs
(`IdentifierToReplace` in the source). -/
structure IdentifierToReplace where
  loc : Loc
  isInUnaryExpression : Bool
  shorthandKey : Option String
deriving DecidableEq, Repr

/-- The body of the `enter` callback of
`InlinableIdentifier.computeIdentifiersToReplace`: decide whether one
traversal entry (a node plus its ancestor chain) is a reference occurrence
to record, and with which context flags.  The guards mirror the source in
order: structural equality with the binding identifier, the shadowing test,
skipping the declaration site itself, requiring a parent, skipping
function-declaration parents, skipping the key slot of an object property
(`parent.node.key === node`) and the property slot of a member expression
(`parent.node.property === node`). -/
def identifierToReplaceAt (id : Node) (entry : Node × List Node) : Option IdentifierToReplace :=
  let node := entry.1
  let ancestors := entry.2
  if !areEqual id node then none
  else if isShadowIn id ancestors then none
  else if (Selection.fromAST node.loc).isInsideNode id then none
  else
    match ancestors.getLast? with
    | none => none
    | some parent =>
      if isFunctionDeclaration parent then none
      else if isObjectProperty parent &&
          (match parent with
            | .objectProperty k _ _ _ _ => Node.beq k node
            | _ => false) then none
      else if isMemberExpression parent &&
          (match parent with
            | .memberExpression _ p _ _ => Node.beq p node
            | _ => false) then none
      else
        some
          { loc := node.loc
            isInUnaryExpression := isUnaryExpression parent
            shorthandKey :=
              match parent with
              | .objectProperty _ _ _ true _ =>
                  if isIdentifier node then some (identifierName node) else none
              | _ => none }

/-- The reference-collection pass of `InlinableIdentifier`
(`computeIdentifiersToReplace`): traverse the scope and record every
accepted occurrence, in traversal order. -/
def computeIdentifiersToReplace (id scope : Node) : List IdentifierToReplace :=
  (traverseNode scope []).filterMap (identifierToReplaceAt id)

/-- The `isRedeclared` getter of `InlinableIdentifier`: traverse the scope
and flip a result flag to true whenever an assignment expression whose left
side is structurally equal to the binding identifier is seen (the source
mutates a `result` variable inside the traversal callback; the fold mirrors
that). -/
def isRedeclaredIn (id scope : Node) : Bool :=
  (traverseNode scope []).foldl
    (fun result e =>
      match e.1 with
      | .assignmentExpression left _ _ => if areEqual id left then true else result
      | _ => result)
    false

/-- Does this node match the `isRedeclared` traversal test: an assignment
expression whose left side equals the binding identifier. -/
def isAssignmentTo (id n : Node) : Bool :=
  match n with
  | .assignmentExpression left _ _ => areEqual id left
  | _ => false

/-- The claim's reading of `isRedeclared` (stated for comparison with the
code): the binding's identifier appears as the left side of an assignment
that occurs later than (after) the declaration within the scope.  "Later"
is read as: the assignment's start position is strictly after the binding
identifier's start position. -/
def isRedeclaredSpecClaim (id scope : Node) : Bool :=
  (traverseNode scope []).any fun e =>
    match e.1 with
    | .assignmentExpression left _ assignLoc =>
        areEqual id left && (Node.loc id).start.isBefore assignLoc.start
    | _ => false

/-- The `isExported` getter of `InlinableIdentifier`: the binding's name is
in the scope's export list. -/
def isExportedIn (name : String) (scope : Node) : Bool :=
  (findExportedIdNames scope).contains name

/-- One text edit: the replacement text and the range it replaces
(`Modification` from the editor module). -/
structure Modification where
  code : String
  selection : Selection
deriving DecidableEq, Repr

/-- The InlinableCode component: one constructor per implementation of the
source's `InlinableCode` interface.  `InlinableIdentifier` is the leaf that
performs reference resolution over a scope; the remaining constructors are
the composite wrappers (`SingleDeclaration`, `MultipleDeclarations`,
`InlinableObjectPattern`, `InlinableArrayPattern`,
`InlinableTopLevelPattern`), each owning a wrapped child.  The
`InlinableTSTypeAlias` leaf is not modelled: no claim concerns it and its
reference resolution runs over type references of a path structure that is
not part of these sources. -/
inductive InlinableCode where
  | InlinableIdentifier (id scope : Node) (valueLoc : Loc)
  | SingleDeclaration (child : InlinableCode)
  | MultipleDeclarations (child : InlinableCode) (previous : Node) (next : Option Node)
  | InlinableObjectPattern (child : InlinableCode) (initName : String) (property : Node)
      (hasRestSibling : Bool) (previous next : Option Node)
  | InlinableArrayPattern (child : InlinableCode) (index : Nat) (element : Node)
      (previous next : Option Node)
  | InlinableTopLevelPattern (child : InlinableCode) (loc : Loc)

/-- The `isRedeclared` attribute: computed by the identifier leaf, delegated
by every composite wrapper (`CompositeInlinable`). -/
def InlinableCode.isRedeclared : InlinableCode → Bool
  | .InlinableIdentifier id scope _ => isRedeclaredIn id scope
  | .SingleDeclaration child => child.isRedeclared
  | .MultipleDeclarations child _ _ => child.isRedeclared
  | .InlinableObjectPattern child _ _ _ _ _ => child.isRedeclared
  | .InlinableArrayPattern child _ _ _ _ => child.isRedeclared
  | .InlinableTopLevelPattern child _ => child.isRedeclared

/-- The `isExported` attribute: computed by the identifier leaf, delegated
by every composite wrapper. -/
def InlinableCode.isExported : InlinableCode → Bool
  | .InlinableIdentifier id scope _ => isExportedIn (identifierName id) scope
  | .SingleDeclaration child => child.isExported
  | .MultipleDeclarations child _ _ => child.isExported
  | .InlinableObjectPattern child _ _ _ _ _ => child.isExported
  | .InlinableArrayPattern child _ _ _ _ => child.isExported
  | .InlinableTopLevelPattern child _ => child.isExported

/-- The `hasIdentifiersToUpdate` attribute: the identifier leaf found at
least one reference; composite wrappers delegate. -/
def InlinableCode.hasIdentifiersToUpdate : InlinableCode → Bool
  | .InlinableIdentifier id scope _ => !(computeIdentifiersToReplace id scope).isEmpty
  | .SingleDeclaration child => child.hasIdentifiersToUpdate
  | .MultipleDeclarations child _ _ => child.hasIdentifiersToUpdate
  | .InlinableObjectPattern child _ _ _ _ _ => child.hasIdentifiersToUpdate
  | .InlinableArrayPattern child _ _ _ _ => child.hasIdentifiersToUpdate
  | .InlinableTopLevelPattern child _ => child.hasIdentifiersToUpdate

/-- The `valueSelection` attribute: set by the identifier leaf from the
initializer's location; composite wrappers delegate. -/
def InlinableCode.valueSelection : InlinableCode → Selection
  | .InlinableIdentifier _ _ valueLoc => Selection.fromAST valueLoc
  | .SingleDeclaration child => child.valueSelection
  | .MultipleDeclarations child _ _ => child.valueSelection
  | .InlinableObjectPattern child _ _ _ _ _ => child.valueSelection
  | .InlinableArrayPattern child _ _ _ _ => child.valueSelection
  | .InlinableTopLevelPattern child _ => child.valueSelection

/-- The `shouldExtendSelectionToDeclaration` attribute: true at the
identifier leaf; `InlinableObjectPattern` turns it off when a rest sibling
or any sibling property is present, `InlinableArrayPattern` when any sibling
element is present; the other wrappers delegate. -/
def InlinableCode.shouldExtendSelectionToDeclaration : InlinableCode → Bool
  | .InlinableIdentifier _ _ _ => true
  | .SingleDeclaration child => child.shouldExtendSelectionToDeclaration
  | .MultipleDeclarations child _ _ => child.shouldExtendSelectionToDeclaration
  | .InlinableObjectPattern child _ _ hasRestSibling previous next =>
      if !child.shouldExtendSelectionToDeclaration then false
      else if hasRestSibling then false
      else next.isNone && previous.isNone
  | .InlinableArrayPattern child _ _ previous next =>
      if !child.shouldExtendSelectionToDeclaration then false
      else next.isNone && previous.isNone
  | .InlinableTopLevelPattern child _ => child.shouldExtendSelectionToDeclaration

/-- The key node of an object property (callers guard with
`isObjectProperty`; other nodes return themselves). -/
def objectPropertyKey : Node → Node
  | .objectProperty key _ _ _ _ => key
  | n => n

/-- The value node of an object property (callers guard with
`isObjectProperty`; other nodes return themselves). -/
def objectPropertyValue : Node → Node
  | .objectProperty _ value _ _ _ => value
  | n => n

/-- The `codeToRemoveSelection` attribute, one case per source class:
the identifier leaf extends its value selection back to the identifier;
`SingleDeclaration` grows to whole lines; `MultipleDeclarations` eats the
delimiter toward its neighbour; `InlinableObjectPattern` keeps nothing (or
only the value of a nested pattern) when a rest sibling is present,
otherwise eats the matched property together with the delimiter toward its
neighbour; `InlinableArrayPattern` likewise for positional elements;
`InlinableTopLevelPattern` replaces the computed range with the whole
declaration when the child wants to extend.  Each wrapper consults the
child's `shouldExtendSelectionToDeclaration` (the `super` getter in the
source). -/
def InlinableCode.codeToRemoveSelection : InlinableCode → Selection
  | .InlinableIdentifier id _ valueLoc =>
      (Selection.fromAST valueLoc).extendStartToStartOf (Selection.fromAST id.loc)
  | .SingleDeclaration child =>
      let selection := child.codeToRemoveSelection
      if !child.shouldExtendSelectionToDeclaration then selection
      else selection.extendToStartOfLine.extendToStartOfNextLine
  | .MultipleDeclarations child previous next =>
      let selection := child.codeToRemoveSelection
      if !child.shouldExtendSelectionToDeclaration then selection
      else
        match next with
        | some n => selection.extendEndToStartOf (Selection.fromAST n.loc)
        | none => selection.extendStartToEndOf (Selection.fromAST previous.loc)
  | .InlinableObjectPattern child _ property hasRestSibling previous next =>
      if !child.shouldExtendSelectionToDeclaration then child.codeToRemoveSelection
      else if hasRestSibling then
        let valueSelection := Selection.fromAST (objectPropertyValue property).loc
        let keySelection := Selection.fromAST (objectPropertyKey property).loc
        if isObjectPattern (objectPropertyValue property) then
          valueSelection.extendStartToEndOf keySelection
        else Selection.cursorAt 0 0
      else
        let selection := Selection.fromAST property.loc
        match next with
        | some n => selection.extendEndToStartOf (Selection.fromAST n.loc)
        | none =>
          match previous with
          | some p => selection.extendStartToEndOf (Selection.fromAST p.loc)
          | none => selection
  | .InlinableArrayPattern child _ element previous next =>
      if !child.shouldExtendSelectionToDeclaration then child.codeToRemoveSelection
      else
        let selection := Selection.fromAST element.loc
        match previous, next with
        | some p, none => selection.extendStartToEndOf (Selection.fromAST p.loc)
        | _, _ => selection
  | .InlinableTopLevelPattern child loc =>
      if child.shouldExtendSelectionToDeclaration then Selection.fromAST loc
      else child.codeToRemoveSelection

/-- Split a character list at every occurrence of a separator character:
the semantics of JavaScript `String.prototype.split` with a one-character
separator (the source splits on `:` and on `.`). -/
def splitOnChar (sep : Char) : List Char → List (List Char)
  | [] => [[]]
  | c :: rest =>
      if c == sep then [] :: splitOnChar sep rest
      else
        match splitOnChar sep rest with
        | [] => [[c]]
        | chunk :: more => (c :: chunk) :: more

/-- String version of `splitOnChar`. -/
def stringSplit (s : String) (sep : Char) : List String :=
  (splitOnChar sep s.data).map String.mk

/-- Join a list of strings with a separator: the semantics of JavaScript
`Array.prototype.join`. -/
def joinWith (sep : String) : List String → String
  | [] => ""
  | [x] => x
  | x :: xs => x ++ sep ++ joinWith sep xs

/-- The helper `prependObjectValueWithInitName` of `InlinableObjectPattern`:
take the part of the replacement code before any `:` (a renamed destructured
variable would give `userId: id`), split it on `.`, and re-insert the
initializer's name before the last segment. -/
def prependObjectValueWithInitName (initName : String) (code : String) : String :=
  let objectValue := (stringSplit code ':').headD ""
  let parts := stringSplit objectValue '.'
  let lastPart := parts.getLastD ""
  joinWith "." (parts.dropLast ++ [initName, lastPart])

/-- The `updateIdentifiersWith` behaviour: at the identifier leaf, each
recorded occurrence is replaced by the inlined code, parenthesized inside a
unary expression and prefixed with `key: ` for a shorthand object key;
`InlinableObjectPattern` first re-qualifies the code with the initializer
name, `InlinableArrayPattern` first appends the positional index access;
the other wrappers delegate unchanged. -/
def InlinableCode.updateIdentifiersWith : InlinableCode → String → List Modification
  | .InlinableIdentifier id scope _, inlinedCode =>
      (computeIdentifiersToReplace id scope).map fun itr =>
        { code :=
            if itr.isInUnaryExpression then "(" ++ inlinedCode ++ ")"
            else
              match itr.shorthandKey with
              | some key => key ++ ": " ++ inlinedCode
              | none => inlinedCode
          selection := Selection.fromAST itr.loc }
  | .SingleDeclaration child, inlinedCode => child.updateIdentifiersWith inlinedCode
  | .MultipleDeclarations child _ _, inlinedCode => child.updateIdentifiersWith inlinedCode
  | .InlinableObjectPattern child initName _ _ _ _, inlinedCode =>
      child.updateIdentifiersWith (prependObjectValueWithInitName initName inlinedCode)
  | .InlinableArrayPattern child index _ _ _, inlinedCode =>
      child.updateIdentifiersWith (inlinedCode ++ "[" ++ toString index ++ "]")
  | .InlinableTopLevelPattern child _, inlinedCode => child.updateIdentifiersWith inlinedCode

/-- Filtering performed by the `InlinableObjectPattern` constructor: the
`previous`/`next` sibling is only retained when it is a selectable object
property (`previous && ast.isSelectableObjectProperty(previous)`), so a
rest-element sibling is dropped. -/
def mkInlinableObjectPattern (child : InlinableCode) (initName : String) (property : Node)
    (hasRestSibling : Bool) (previous next : Option Node) : InlinableCode :=
  InlinableCode.InlinableObjectPattern child initName property hasRestSibling
    (match previous with
      | some p => if isObjectProperty p then some p else none
      | none => none)
    (match next with
      | some n => if isObjectProperty n then some n else none
      | none => none)

/-- Filtering performed by the `InlinableArrayPattern` constructor: the
`previous`/`next` sibling is retained when present and selectable; every
modelled node is selectable, so the optional siblings pass through (an
elided slot arrives as `none` already). -/
def mkInlinableArrayPattern (child : InlinableCode) (index : Nat) (element : Node)
    (previous next : Option Node) : InlinableCode :=
  InlinableCode.InlinableArrayPattern child index element previous next

/-- The string a possibly-null name renders to inside a JavaScript template
literal: a missing name prints as the text "null". -/
def jsTemplateString : Option String → String
  | some s => s
  | none => "null"

/-- The test `property.value === null` of `getInitName`.  No modelled node
carries a literal `null` in a `value` field: numeric and string literals
carry their number or string, and on every other node kind the `value`
field is `undefined`, and `undefined === null` is false under strict
equality — so the test is false for every node. -/
def valueFieldIsNullLiteral (_ : Node) : Bool :=
  false

/-- The numeric value of a numeric literal, as text (callers guard with
`isNumericLiteral`). -/
def numericLiteralValueString : Node → String
  | .numericLiteral v _ => toString v
  | _ => ""

/-- The string value of a string literal (callers guard with
`isStringLiteral`). -/
def stringLiteralValue : Node → String
  | .stringLiteral v _ => v
  | _ => ""

/-- `getInitName`: render an initializer expression as the textual name used
to re-qualify a destructured reference — an identifier's name, a
member-access chain with bracketed numeric/string/computed segments, the key
of an object property, the literal `this`, and `null` (absent) for any
other shape. -/
def getInitName : Node → Option String
  | .identifier name _ => some name
  | .memberExpression object property computed _ =>
      let propertyName :=
        if isNumericLiteral property then "[" ++ numericLiteralValueString property ++ "]"
        else if isStringLiteral property then "[\"" ++ stringLiteralValue property ++ "\"]"
        else if isIdentifier property && computed then "[" ++ identifierName property ++ "]"
        else "." ++ jsTemplateString (getInitName property)
      if valueFieldIsNullLiteral property && (getInitName property).isNone then none
      else some (jsTemplateString (getInitName object) ++ propertyName)
  | .objectProperty key _ _ _ _ => getInitName key
  | .thisExpression _ => some "this"
  | _ => none

/-- A declaration handed to `findInlinableCode`: a left-hand binding shape
and an optional initializer.  In the source this is either the
`VariableDeclarator` node itself (the top-level call) or an ad-hoc
`{ id, init }` pair built during decomposition; `isVariableDeclarator`
records which of the two it is, which is what the
`ast.isVariableDeclarator(declaration)` test in `wrapInTopLevelPattern`
observes. -/
structure Declaration where
  id : Node
  init : Option Node
  isVariableDeclarator : Bool

/-- `wrapInTopLevelPattern`: when the declaration is a standalone variable
declarator, wrap the decomposition result in the top-level-pattern marker
that deletes the entire declaration range. -/
def wrapInTopLevelPattern (child : Option InlinableCode) (isVariableDeclarator : Bool)
    (loc : Loc) : Option InlinableCode :=
  match child with
  | none => none
  | some c =>
      if isVariableDeclarator then some (InlinableCode.InlinableTopLevelPattern c loc)
      else some c

/-- The first element of a list of optional nodes, flattened: the
`id.elements[index + 1]` lookup, where both an absent slot and an elided
(`null`) slot give nothing. -/
def flattenHead : List (Option Node) → Option Node
  | some n :: _ => some n
  | _ => none

mutual
/-- The body of `findInlinableCode` on the shape of the declaration's `id`:
a selectable identifier becomes an `InlinableIdentifier` leaf over the
parent scope; an object pattern is decomposed property by property; an
array pattern element by element; any other shape (or a missing
initializer, which fails the `ast.isSelectableNode(init)` guard) yields
nothing. -/
def findInlinableCodeOfId (selection : Selection) (parent : Node) (id : Node)
    (init : Option Node) (isVariableDeclarator : Bool) : Option InlinableCode :=
  match id, init with
  | _, none => none
  | .identifier name idLoc, some init =>
      some (InlinableCode.InlinableIdentifier (.identifier name idLoc) parent (Node.loc init))
  | .objectPattern properties oLoc, some init =>
      let result :=
        findInObjectProperties selection parent init (properties.any isRestElement)
          none none properties
      wrapInTopLevelPattern result isVariableDeclarator oLoc
  | .arrayPattern elements aLoc, some init =>
      let result := findInArrayElements selection parent init 0 none none elements
      wrapInTopLevelPattern result isVariableDeclarator aLoc
  | _, some _ => none
termination_by structural id

/-- The per-property body of the object-pattern `forEach` of
`findInlinableCode`: skip the property unless the selection lies inside it,
it is a selectable object property (so never a rest element), its value
decomposes recursively (with the property itself as the nested
initializer), and the initializer renders to a name; otherwise build the
`InlinableObjectPattern` wrapper. -/
def objectPropertyCandidate (selection : Selection) (parent init : Node) (hasRestSibling : Bool)
    (previous next : Option Node) (property : Node) : Option InlinableCode :=
  match property with
  | p@(.objectProperty _ value _ _ _) =>
      if !(selection.isInsideNode p) then none
      else
        match findInlinableCodeOfId selection parent value (some p) false with
        | none => none
        | some child =>
          match getInitName init with
          | none => none
          | some initName =>
              some (mkInlinableObjectPattern child initName p hasRestSibling previous next)
  | _ => none
termination_by structural property

/-- The object-pattern `forEach` loop of `findInlinableCode`: walk the
properties in order, keeping the most recent successful candidate (the
source overwrites a single `result` variable, so the last eligible property
wins), tracking the previous sibling and looking ahead to the next one. -/
def findInObjectProperties (selection : Selection) (parent init : Node) (hasRestSibling : Bool)
    (previous : Option Node) (result : Option InlinableCode) (properties : List Node) :
    Option InlinableCode :=
  match properties with
  | [] => result
  | property :: rest =>
      let updated :=
        match objectPropertyCandidate selection parent init hasRestSibling previous
            rest.head? property with
        | none => result
        | some r => some r
      findInObjectProperties selection parent init hasRestSibling (some property) updated rest
termination_by structural properties

/-- The array-pattern `forEach` loop of `findInlinableCode`: walk the
elements positionally, skipping elided slots, and keep the most recent
element that contains the selection and decomposes recursively (against the
same initializer), wrapped in an `InlinableArrayPattern` with its index and
flattened neighbours. -/
def findInArrayElements (selection : Selection) (parent init : Node) (index : Nat)
    (previous : Option Node) (result : Option InlinableCode)
    (elements : List (Option Node)) : Option InlinableCode :=
  match elements with
  | [] => result
  | none :: rest => findInArrayElements selection parent init (index + 1) none result rest
  | some element :: rest =>
      let updated :=
        if !(selection.isInsideNode element) then result
        else
          match findInlinableCodeOfId selection parent element (some init) false with
          | none => result
          | some child =>
              some (mkInlinableArrayPattern child index element previous (flattenHead rest))
      findInArrayElements selection parent init (index + 1) (some element) updated rest
termination_by structural elements
end

/-- `findInlinableCode`: decompose a declaration intersected with the user's
selection into the inlinable element it designates, if any. -/
def findInlinableCode (selection : Selection) (parent : Node) (declaration : Declaration) :
    Option InlinableCode :=
  findInlinableCodeOfId selection parent declaration.id declaration.init
    declaration.isVariableDeclarator

/-- Statements for the merge-with-previous-if-statement embedding,
parameterized by the type of test expressions (compared with
`ast.areEqual`, so any type with decidable equality serves).  `ifStmt`
carries its consequent and optional alternate; `blockStmt` a list of
statements; `other` an opaque non-if, non-block statement. -/
inductive MStmt (α : Type) where
  | ifStmt (test : α) (consequent : MStmt α) (alternate : Option (MStmt α))
  | blockStmt (body : List (MStmt α))
  | other (tag : Nat)

/-- Type test `ast.isIfStatement` on merge statements. -/
def MStmt.isIfStatement {α : Type} : MStmt α → Bool
  | .ifStmt _ _ _ => true
  | _ => false

/-- `ast.getStatements`: the body of a block statement, or the statement
itself as a singleton. -/
def getStatements {α : Type} : MStmt α → List (MStmt α)
  | .blockStmt body => body
  | s => [s]

/-- `mergeWith`: a block statement holding the branch's statements followed
by the statements to merge. -/
def mergeWith {α : Type} (branch : MStmt α) (statements : List (MStmt α)) : MStmt α :=
  MStmt.blockStmt (getStatements branch ++ statements)

/-- `mergeWithIfStatement`: merge `node` into the if statement — append it
(or, when `node` is an if with a structurally equal test, its consequent's
statements) to the consequent, then walk into the alternate: recurse when
the alternate is itself an if statement, merge into it directly otherwise.
In the source the if statement is mutated in place; here the updated
statement is returned.  A non-if first argument is returned unchanged (the
source's parameter type restricts to if statements). -/
def mergeWithIfStatement {α : Type} [DecidableEq α] : MStmt α → MStmt α → MStmt α
  | .ifStmt test consequent alternate, node =>
      let nodesToMerge :=
        match node with
        | .ifStmt nodeTest nodeConsequent _ =>
            if test = nodeTest then getStatements nodeConsequent else [node]
        | _ => [node]
      let newConsequent := mergeWith consequent nodesToMerge
      match alternate with
      | none => .ifStmt test newConsequent none
      | some alt =>
          if alt.isIfStatement then
            .ifStmt test newConsequent (some (mergeWithIfStatement alt node))
          else .ifStmt test newConsequent (some (mergeWith alt [node]))
  | s, _ => s
termination_by structural s => s

/-- Fuel-indexed variant of `mergeWithIfStatement`, modelling the source's
unbounded recursive calls: each descent into the alternate consumes one unit
of fuel, and exhausted fuel yields nothing.  Termination of the source
recursion is the statement that enough fuel always exists. -/
def mergeWithIfStatementFuel {α : Type} [DecidableEq α] :
    Nat → MStmt α → MStmt α → Option (MStmt α)
  | 0, _, _ => none
  | fuel + 1, .ifStmt test consequent alternate, node =>
      let nodesToMerge :=
        match node with
        | .ifStmt nodeTest nodeConsequent _ =>
            if test = nodeTest then getStatements nodeConsequent else [node]
        | _ => [node]
      let newConsequent := mergeWith consequent nodesToMerge
      match alternate with
      | none => some (.ifStmt test newConsequent none)
      | some alt =>
          if alt.isIfStatement then
            match mergeWithIfStatementFuel fuel alt node with
            | none => none
            | some merged => some (.ifStmt test newConsequent (some merged))
          else some (.ifStmt test newConsequent (some (mergeWith alt [node])))
  | _ + 1, s, _ => some s

/-- The length of the `alternate` chain of an if statement: the number of
`else if` links hanging off it. -/
def alternateChainDepth {α : Type} : MStmt α → Nat
  | .ifStmt _ _ (some alt) => alternateChainDepth alt + 1
  | _ => 0
termination_by structural s => s

/-- The error kinds of the inlining subsystem (`ErrorReason` in the editor
module), restricted to the ones the inlining flows report. -/
inductive ErrorReason where
  | DidNotFindInlinableCode
  | CantInlineFunctionWithMultipleReturns
  | CantInlineAssignedFunctionWithoutReturn
  | CantInlineAssignedFunctionWithManyStatements
  | CantRemoveExportedFunction
deriving DecidableEq, Repr

/-- Statements of a function body, for the function-inlining flow: return
statements, if statements (with statement-list branches), plain blocks,
nested function declarations (whose returns do not count), and opaque
expression statements. -/
inductive FnStmt where
  | returnStatement
  | ifStatement (consequent alternate : List FnStmt)
  | blockStatement (body : List FnStmt)
  | nestedFunction (body : List FnStmt)
  | expressionStatement (tag : Nat)
deriving Repr

mutual
/-- Modelled from the spec: the number of return statements a single
statement contributes — descending through if branches and blocks but not
into nested functions (§4.4 item 2: "counting only statements, not nested
functions"). -/
def countReturnsStmt : FnStmt → Nat
  | .returnStatement => 1
  | .ifStatement consequent alternate =>
      countReturnsList consequent + countReturnsList alternate
  | .blockStatement body => countReturnsList body
  | .nestedFunction _ => 0
  | .expressionStatement _ => 0
termination_by structural s => s

/-- Return count of a statement list. -/
def countReturnsList : List FnStmt → Nat
  | [] => 0
  | s :: rest => countReturnsStmt s + countReturnsList rest
termination_by structural ss => ss
end

/-- Is this statement a return statement. -/
def FnStmt.isReturnStatement : FnStmt → Bool
  | .returnStatement => true
  | _ => false

/-- Modelled from the spec: is the final statement of the body a return
statement (§4.4 item 3 rejects a body whose only return is not the final
statement — an implicit/early return path exists). -/
def lastStatementIsReturn (body : List FnStmt) : Bool :=
  match body.getLast? with
  | some s => s.isReturnStatement
  | none => false

/-- How one reference to the function occurs: a direct call site, or a
value position (assigned to a variable or otherwise used as a value). -/
inductive FunctionReference where
  | callSite
  | valuePosition
deriving DecidableEq, Repr

/-- The function declaration the function-inlining flow operates on: its
body and whether its name is in the scope's export list. -/
structure FunctionToInline where
  body : List FnStmt
  isExported : Bool
deriving Repr

/-- The outcome of a successful function inlining: how many references were
rewritten with the inlined body, whether the declaration itself was removed
from the output, and the non-fatal notices reported to the editor. -/
structure InlineFunctionOutcome where
  rewrittenReferences : Nat
  declarationRemoved : Bool
  notices : List ErrorReason
deriving DecidableEq, Repr

/-- Modelled from the spec: the eligibility-and-rewrite pipeline of the
function inliner (§4.4), whose orchestrating module is not among the
sources here (only its test suite is).  In order: a body with more than one
return statement, or whose single return is not the final statement, fails
with `CantInlineFunctionWithMultipleReturns`; a function referenced in a
value position must reduce to a single return statement
(`CantInlineAssignedFunctionWithoutReturn` /
`CantInlineAssignedFunctionWithManyStatements`); a function with no
reference at all is not inlinable; otherwise every reference is rewritten
and the declaration is deleted unless the function is exported, in which
case it is kept and `CantRemoveExportedFunction` is reported once. -/
def inlineFunction (fn : FunctionToInline) (references : List FunctionReference) :
    Except ErrorReason InlineFunctionOutcome :=
  if countReturnsList fn.body > 1 then
    Except.error ErrorReason.CantInlineFunctionWithMultipleReturns
  else if countReturnsList fn.body == 1 && !lastStatementIsReturn fn.body then
    Except.error ErrorReason.CantInlineFunctionWithMultipleReturns
  else if references.any (fun r => r == FunctionReference.valuePosition) then
    if countReturnsList fn.body == 0 then
      Except.error ErrorReason.CantInlineAssignedFunctionWithoutReturn
    else if fn.body.length > 1 then
      Except.error ErrorReason.CantInlineAssignedFunctionWithManyStatements
    else
      Except.ok
        { rewrittenReferences := references.length
          declarationRemoved := !fn.isExported
          notices := if fn.isExported then [ErrorReason.CantRemoveExportedFunction] else [] }
  else if references.isEmpty then
    Except.error ErrorReason.DidNotFindInlinableCode
  else
    Except.ok
      { rewrittenReferences := references.length
        declarationRemoved := !fn.isExported
        notices := if fn.isExported then [ErrorReason.CantRemoveExportedFunction] else [] }

/-- Eligibility of one object-pattern property during decomposition: the
selection lies inside it, it is not a rest element, it is a (selectable)
object property, its value decomposes recursively against the property as
nested initializer, and the declaration's initializer renders to a name —
the conjunction of the guards of the source's `forEach` body. -/
def eligibleObjectProperty (selection : Selection) (parent init : Node) (property : Node) : Bool :=
  selection.isInsideNode property && !isRestElement property && isObjectProperty property &&
    (findInlinableCodeOfId selection parent (objectPropertyValue property) (some property)
        false).isSome &&
    (getInitName init).isSome

/-- The pattern property an `InlinableObjectPattern` wrapper was built from,
if the result is such a wrapper. -/
def inlinedPropertyRaw : Option InlinableCode → Option Node
  | some (.InlinableObjectPattern _ _ property _ _ _) => some property
  | _ => none

/-- The pattern property a decomposition result was built from, looking
through the top-level-pattern marker. -/
def inlinedObjectProperty : Option InlinableCode → Option Node
  | some (.InlinableTopLevelPattern child _) => inlinedPropertyRaw (some child)
  | r => inlinedPropertyRaw r

/-- Is this inlinable an `InlinableObjectPattern` wrapper. -/
def InlinableCode.isObjectPatternWrapper : InlinableCode → Bool
  | .InlinableObjectPattern _ _ _ _ _ _ => true
  | _ => false

/-- Shorthand for building a location out of four coordinates. -/
def mkLoc (startLine startColumn finishLine finishColumn : Nat) : Loc :=
  ⟨⟨startLine, startColumn⟩, ⟨finishLine, finishColumn⟩⟩

/-- Concrete program for the shadowing claims: the binding identifier of
`const x = 1` at line 0. -/
def shadowBindingId : Node := .identifier "x" (mkLoc 0 6 0 7)

/-- Location of the outer (non-shadowed) reference to `x`. -/
def shadowOuterRefLoc : Loc := mkLoc 1 4 1 5

/-- The inner function of the shadowing program: it redeclares `x` and then
uses the inner `x`. -/
def shadowInnerScope : Node :=
  .functionDeclaration (.identifier "inner" (mkLoc 2 9 2 14)) []
    [.variableDeclaration
        [.variableDeclarator (.identifier "x" (mkLoc 3 6 3 7))
          (some (.numericLiteral 2 (mkLoc 3 10 3 11))) (mkLoc 3 6 3 11)]
        (mkLoc 3 0 3 12),
      .callExpression (.identifier "log" (mkLoc 4 0 4 3)) [.identifier "x" (mkLoc 4 4 4 5)]
        (mkLoc 4 0 4 6)]
    (mkLoc 2 0 5 1)

/-- The shadowing program: `const x = 1; log(x); function inner() { const
x = 2; log(x); }` — the reference at line 1 refers to the outer binding,
the reference at line 4 to the inner one. -/
def shadowScope : Node :=
  .blockStatement
    [.variableDeclaration
        [.variableDeclarator shadowBindingId (some (.numericLiteral 1 (mkLoc 0 10 0 11)))
          (mkLoc 0 6 0 11)]
        (mkLoc 0 0 0 12),
      .callExpression (.identifier "log" (mkLoc 1 0 1 3)) [.identifier "x" shadowOuterRefLoc]
        (mkLoc 1 0 1 6),
      shadowInnerScope]
    (mkLoc 0 0 6 0)

/-- Concrete program for the redeclaration claim: the binding identifier of
`const y = 1` at line 1 — declared after the assignment. -/
def redeclaredBindingId : Node := .identifier "y" (mkLoc 1 6 1 7)

/-- The assignment-before-declaration program: `y = 2; const y = 1;` — the
only assignment to `y` occurs earlier than the declaration. -/
def assignBeforeScope : Node :=
  .blockStatement
    [.assignmentExpression (.identifier "y" (mkLoc 0 0 0 1)) (.numericLiteral 2 (mkLoc 0 4 0 5))
        (mkLoc 0 0 0 5),
      .variableDeclaration
        [.variableDeclarator redeclaredBindingId (some (.numericLiteral 1 (mkLoc 1 10 1 11)))
          (mkLoc 1 6 1 11)]
        (mkLoc 1 0 1 12)]
    (mkLoc 0 0 2 0)

/-- Concrete program for the computed-access claim: the binding identifier
of `const k = 1` at line 0. -/
def computedKeyBindingId : Node := .identifier "k" (mkLoc 0 6 0 7)

/-- Location of the occurrence of `k` in computed property position. -/
def computedKeyRefLoc : Loc := mkLoc 1 4 1 5

/-- The member expression `obj[k]` — a computed access whose property is
the identifier `k`. -/
def computedKeyMember : Node :=
  .memberExpression (.identifier "obj" (mkLoc 1 0 1 3)) (.identifier "k" computedKeyRefLoc)
    true (mkLoc 1 0 1 6)

/-- The computed-access program: `const k = 1; obj[k];`. -/
def computedKeyScope : Node :=
  .blockStatement
    [.variableDeclaration
        [.variableDeclarator computedKeyBindingId (some (.numericLiteral 1 (mkLoc 0 10 0 11)))
          (mkLoc 0 6 0 11)]
        (mkLoc 0 0 0 12),
      computedKeyMember]
    (mkLoc 0 0 2 0)

/-- Concrete binding for the delegation claims: the `a` of
`const { a } = obj; f(a);`. -/
def delegationBindingId : Node := .identifier "a" (mkLoc 0 8 0 9)

/-- Scope of the delegation program: one declaration, one reference. -/
def delegationScope : Node :=
  .blockStatement
    [.variableDeclaration
        [.variableDeclarator
          (.objectPattern
            [.objectProperty delegationBindingId delegationBindingId false true (mkLoc 0 8 0 9)]
            (mkLoc 0 6 0 11))
          (some (.identifier "obj" (mkLoc 0 14 0 17))) (mkLoc 0 6 0 17)]
        (mkLoc 0 0 0 18),
      .callExpression (.identifier "f" (mkLoc 1 0 1 1)) [.identifier "a" (mkLoc 1 2 1 3)]
        (mkLoc 1 0 1 4)]
    (mkLoc 0 0 2 0)

/-- The identifier leaf of the delegation program: it resolves exactly one
reference (`f(a)`). -/
def delegationChild : InlinableCode :=
  .InlinableIdentifier delegationBindingId delegationScope (mkLoc 0 8 0 9)

/-- The shorthand property `a` of the delegation program's pattern. -/
def delegationProperty : Node :=
  .objectProperty delegationBindingId delegationBindingId false true (mkLoc 0 8 0 9)

/-- The `InlinableObjectPattern` wrapper the decomposition of the
delegation program builds around the leaf. -/
def delegationWrapper : InlinableCode :=
  .InlinableObjectPattern delegationChild "obj" delegationProperty false none none

/-- The array-pattern element `b` of the rest-sibling program. -/
def restSiblingElementB : Node := .identifier "b" (mkLoc 0 11 0 12)

/-- The array-pattern value `[b, c]` of the rest-sibling program. -/
def restSiblingValue : Node :=
  .arrayPattern [some restSiblingElementB, some (.identifier "c" (mkLoc 0 14 0 15))]
    (mkLoc 0 10 0 16)

/-- The property `a: [b, c]` of the rest-sibling program — its value is an
array pattern, not an object pattern. -/
def restSiblingProperty : Node :=
  .objectProperty (.identifier "a" (mkLoc 0 7 0 8)) restSiblingValue false false (mkLoc 0 7 0 16)

/-- The rest element `...rest` of the rest-sibling program. -/
def restSiblingRest : Node :=
  .restElement (.identifier "rest" (mkLoc 0 21 0 25)) (mkLoc 0 18 0 25)

/-- The pattern `{ a: [b, c], ...rest }`. -/
def restSiblingPattern : Node :=
  .objectPattern [restSiblingProperty, restSiblingRest] (mkLoc 0 6 0 26)

/-- The initializer `obj` of the rest-sibling program. -/
def restSiblingInit : Node := .identifier "obj" (mkLoc 0 29 0 32)

/-- The declaration `const { a: [b, c], ...rest } = obj;`. -/
def restSiblingDeclaration : Declaration :=
  ⟨restSiblingPattern, some restSiblingInit, true⟩

/-- Scope of the rest-sibling program: the declaration plus one reference
`f(b)`. -/
def restSiblingScope : Node :=
  .blockStatement
    [.variableDeclaration
        [.variableDeclarator restSiblingPattern (some restSiblingInit) (mkLoc 0 6 0 32)]
        (mkLoc 0 0 0 33),
      .callExpression (.identifier "f" (mkLoc 1 0 1 1)) [.identifier "b" (mkLoc 1 2 1 3)]
        (mkLoc 1 0 1 4)]
    (mkLoc 0 0 2 0)

/-- The decomposition result of the rest-sibling program with the cursor on
`b`. -/
def restSiblingResult : Option InlinableCode :=
  findInlinableCode (Selection.cursorAt 0 11) restSiblingScope restSiblingDeclaration

/-- Function body with two return statements, one nested inside an if
statement (the `getFirstName` program of the test suite). -/
def multiReturnBody : List FnStmt :=
  [.ifStatement [.returnStatement] [], .returnStatement]

/-- Function body whose single return sits inside an if statement, so the
final statement is not a return (the implicit-return program of the test
suite). -/
def implicitReturnBody : List FnStmt :=
  [.ifStatement [.returnStatement] []]

/-- The exported function of the test suite (`sayHello`): one expression
statement, exported, called once. -/
def exportedSayHello : FunctionToInline :=
  { body := [.expressionStatement 0], isExported := true }

/-- An accepted occurrence passed the shadowing filter: whenever
`identifierToReplaceAt` keeps an entry, no ancestor of that entry opens a
redeclaring scope. -/
theorem identifierToReplaceAt_not_shadowed (id : Node) (n : Node) (anc : List Node)
    (r : IdentifierToReplace) (h : identifierToReplaceAt id (n, anc) = some r) :
    isShadowIn id anc = false := by
  unfold identifierToReplaceAt at h
  simp only at h
  split at h
  · exact absurd h (by simp)
  · split at h
    · exact absurd h (by simp)
    · rename_i h1 h2
      simpa using h2

/-- An accepted occurrence records the node's own location. -/
theorem identifierToReplaceAt_loc (id : Node) (n : Node) (anc : List Node)
    (r : IdentifierToReplace) (h : identifierToReplaceAt id (n, anc) = some r) :
    r.loc = Node.loc n := by
  unfold identifierToReplaceAt at h
  simp only at h
  split at h
  · exact absurd h (by simp)
  · split at h
    · exact absurd h (by simp)
    · split at h
      · exact absurd h (by simp)
      · split at h
        · exact absurd h (by simp)
        · split at h
          · exact absurd h (by simp)
          · split at h
            · exact absurd h (by simp)
            · split at h
              · exact absurd h (by simp)
              · exact (congrArg IdentifierToReplace.loc (Option.some.inj h)).symm

/-- C1: every occurrence the reference-collection pass of
`InlinableIdentifier` collects comes from a traversal entry none of whose
enclosing scopes redeclares the binding's identifier — so an occurrence
lying inside an inner scope that redeclares the name (a shadowing scope) is
never collected, and inlining the outer binding never rewrites occurrences
of the inner binding. -/
theorem shadowed_occurrences_never_collected (id scope : Node) (r : IdentifierToReplace)
    (hr : r ∈ computeIdentifiersToReplace id scope) :
    ∃ e ∈ traverseNode scope [], Node.loc e.1 = r.loc ∧
      ∀ a ∈ e.2, redeclaresIdentifier id a = false := by
  rcases List.mem_filterMap.mp hr with ⟨e, he, hsome⟩
  obtain ⟨n, anc⟩ := e
  refine ⟨(n, anc), he, (identifierToReplaceAt_loc id n anc r hsome).symm, ?_⟩
  have hshadow := identifierToReplaceAt_not_shadowed id n anc r hsome
  intro a ha
  have := List.any_eq_false.mp (by simpa [isShadowIn] using hshadow) a ha
  simpa using this

/-- Witness for C1 on the shadowing program: the single collected reference
is the outer one, and the theorem yields its shadow-free traversal entry. -/
theorem shadowed_occurrences_never_collected_witness :
    (⟨shadowOuterRefLoc, false, none⟩ : IdentifierToReplace) ∈
        computeIdentifiersToReplace shadowBindingId shadowScope ∧
      ∃ e ∈ traverseNode shadowScope [], Node.loc e.1 = shadowOuterRefLoc ∧
        ∀ a ∈ e.2, redeclaresIdentifier shadowBindingId a = false :=
  ⟨by decide,
    shadowed_occurrences_never_collected shadowBindingId shadowScope
      ⟨shadowOuterRefLoc, false, none⟩ (by decide)⟩

/-- A fold that flips a flag to true whenever a predicate holds computes the
disjunction of the initial flag with "some element satisfies the
predicate". -/
theorem foldl_flag_eq_or_any {β : Type} (p : β → Bool) :
    ∀ (l : List β) (b : Bool),
      l.foldl (fun result x => if p x then true else result) b = (b || l.any p) := by
  intro l
  induction l with
  | nil => intro b; simp
  | cons x xs ih =>
      intro b
      simp only [List.foldl_cons, List.any_cons]
      rw [ih]
      cases h : p x <;> simp [h]

/-- C2 (counterexample): on the program `y = 2; const y = 1;` the binding
`y` has no assignment later than its declaration, yet `isRedeclared` is
true — refuting the claimed "if and only if the assignment occurs later
than the declaration". -/
theorem isRedeclared_claim_counterexample :
    isRedeclaredIn redeclaredBindingId assignBeforeScope = true ∧
      isRedeclaredSpecClaim redeclaredBindingId assignBeforeScope = false := by
  constructor
  · decide
  · decide

/-- C2 (amended): `isRedeclared` is true if and only if some node of the
scope's traversal is an assignment expression whose left side is
structurally equal to the binding's identifier — at any position, earlier
or later than the declaration. -/
theorem isRedeclared_iff_assignment_exists (id scope : Node) :
    isRedeclaredIn id scope = true ↔
      ∃ e ∈ traverseNode scope [], isAssignmentTo id e.1 = true := by
  unfold isRedeclaredIn
  have hfun :
      (fun (result : Bool) (e : Node × List Node) =>
          match e.1 with
          | Node.assignmentExpression left _ _ => if areEqual id left then true else result
          | _ => result)
        = fun (result : Bool) e => if isAssignmentTo id e.1 then true else result := by
    funext result e
    cases h : e.1 <;> simp [isAssignmentTo, h]
  rw [hfun, foldl_flag_eq_or_any (fun e => isAssignmentTo id e.1) (traverseNode scope [])]
  simp [List.any_eq_true]

/-- C3 (counterexample): in `const k = 1; obj[k];` the occurrence of `k` is
the property of a computed member access, otherwise eligible (same name,
not shadowed, not the declaration site), yet the reference-collection pass
collects nothing — refuting the claim that a computed-access occurrence is
collected as a reference to be rewritten. -/
theorem computed_access_claim_counterexample :
    ((traverseNode computedKeyScope []).any fun e =>
        Node.beq e.1 (.identifier "k" computedKeyRefLoc) &&
          (match e.2.getLast? with
            | some p => Node.beq p computedKeyMember
            | none => false) &&
          !isShadowIn computedKeyBindingId e.2 &&
          !((Selection.fromAST (Node.loc e.1)).isInsideNode computedKeyBindingId)) = true ∧
      computeIdentifiersToReplace computedKeyBindingId computedKeyScope = [] := by
  constructor
  · decide
  · decide

/-- C3 (amended): an identifier occurrence in the key position of an object
property or in the property position of a member access is excluded by the
reference-collection pass regardless of the access's `computed` flag. -/
theorem key_and_property_positions_never_collected (id n : Node) (anc : List Node)
    (o q : Node) (c : Bool) (l : Loc) (k v : Node) (s : Bool) (l2 : Loc) :
    (anc.getLast? = some (Node.memberExpression o q c l) → Node.beq q n = true →
        identifierToReplaceAt id (n, anc) = none) ∧
      (anc.getLast? = some (Node.objectProperty k v c s l2) → Node.beq k n = true →
        identifierToReplaceAt id (n, anc) = none) := by
  constructor
  · intro hlast hbeq
    unfold identifierToReplaceAt
    simp only [hlast, isFunctionDeclaration, isObjectProperty, isMemberExpression, hbeq]
    split <;> simp
  · intro hlast hbeq
    unfold identifierToReplaceAt
    simp only [hlast, isFunctionDeclaration, isObjectProperty, isMemberExpression, hbeq]
    split <;> simp

/-- Witness for the amended C3 on the computed-access program: the
occurrence of `k` in `obj[k]` sits in property position of a computed
member access and is excluded. -/
theorem key_and_property_positions_never_collected_witness :
    [computedKeyScope, computedKeyMember].getLast? =
        some (Node.memberExpression (.identifier "obj" (mkLoc 1 0 1 3))
          (.identifier "k" computedKeyRefLoc) true (mkLoc 1 0 1 6)) ∧
      Node.beq (.identifier "k" computedKeyRefLoc) (.identifier "k" computedKeyRefLoc) = true ∧
      identifierToReplaceAt computedKeyBindingId
          (.identifier "k" computedKeyRefLoc, [computedKeyScope, computedKeyMember]) = none :=
  ⟨rfl, by decide,
    (key_and_property_positions_never_collected computedKeyBindingId
        (.identifier "k" computedKeyRefLoc) [computedKeyScope, computedKeyMember]
        (.identifier "obj" (mkLoc 1 0 1 3)) (.identifier "k" computedKeyRefLoc) true
        (mkLoc 1 0 1 6) (.identifier "k" computedKeyRefLoc) (.identifier "k" computedKeyRefLoc)
        true (mkLoc 1 0 1 6)).1 rfl (by decide)⟩

/-- Case analysis of the per-property decomposition body: a property either
fails one of the guards (it is skipped and it is not eligible) or passes
them all, in which case the candidate is an `InlinableObjectPattern`
wrapper built from exactly that property. -/
theorem objectPropertyCandidate_cases (selection : Selection) (parent init : Node)
    (hasRestSibling : Bool) (previous next : Option Node) (property : Node) :
    (objectPropertyCandidate selection parent init hasRestSibling previous next property = none ∧
        eligibleObjectProperty selection parent init property = false) ∨
      ∃ r, objectPropertyCandidate selection parent init hasRestSibling previous next property
            = some r ∧
          eligibleObjectProperty selection parent init property = true ∧
          inlinedPropertyRaw (some r) = some property := by
  cases property
  case objectProperty k v c s l =>
    by_cases hin : selection.isInsideNode (Node.objectProperty k v c s l)
    · cases hfind : findInlinableCodeOfId selection parent v
          (some (Node.objectProperty k v c s l)) false with
      | none =>
          left
          constructor
          · simp [objectPropertyCandidate, hin, hfind]
          · simp [eligibleObjectProperty, hin, objectPropertyValue, hfind, isRestElement,
              isObjectProperty]
      | some child =>
          cases hinit : getInitName init with
          | none =>
              left
              constructor
              · simp [objectPropertyCandidate, hin, hfind, hinit]
              · simp [eligibleObjectProperty, hin, objectPropertyValue, hfind, hinit,
                  isRestElement, isObjectProperty]
          | some nameStr =>
              right
              refine ⟨mkInlinableObjectPattern child nameStr (Node.objectProperty k v c s l)
                  hasRestSibling previous next, ?_, ?_, ?_⟩
              · simp [objectPropertyCandidate, hin, hfind, hinit]
              · simp [eligibleObjectProperty, hin, objectPropertyValue, hfind, hinit,
                  isRestElement, isObjectProperty]
              · simp [mkInlinableObjectPattern, inlinedPropertyRaw]
    · left
      constructor
      · simp [objectPropertyCandidate, hin]
      · simp [eligibleObjectProperty, hin]
  all_goals
    left
    refine ⟨?_, ?_⟩ <;>
      simp [objectPropertyCandidate, eligibleObjectProperty, isObjectProperty, isRestElement]

/-- The last element of a cons cell, as a one-step match. -/
theorem getLast?_cons_match {β : Type} (a : β) (m : List β) :
    (a :: m).getLast? = match m.getLast? with | some q => some q | none => some a := by
  induction m generalizing a with
  | nil => rfl
  | cons b m2 ih =>
      simp only [List.getLast?_cons_cons, ih b]
      cases h : m2.getLast? <;> simp [h]

/-- The object-pattern loop keeps the last eligible property: the property
recorded in its result is the last eligible property of the walked list,
falling back to whatever the accumulator held. -/
theorem findInObjectProperties_last_eligible (selection : Selection) (parent init : Node)
    (hasRestSibling : Bool) :
    ∀ (properties : List Node) (previous : Option Node) (result : Option InlinableCode),
      inlinedPropertyRaw
          (findInObjectProperties selection parent init hasRestSibling previous result properties)
        = match (properties.filter (eligibleObjectProperty selection parent init)).getLast? with
          | some p => some p
          | none => inlinedPropertyRaw result := by
  intro properties
  induction properties with
  | nil => intro previous result; simp [findInObjectProperties]
  | cons property rest ih =>
      intro previous result
      rcases objectPropertyCandidate_cases selection parent init hasRestSibling previous
          rest.head? property with ⟨hc, he⟩ | ⟨r, hc, he, hraw⟩
      · simp only [findInObjectProperties, hc]
        rw [ih]
        simp [List.filter_cons, he]
      · simp only [findInObjectProperties, hc]
        rw [ih]
        simp only [List.filter_cons, he, if_pos]
        rw [getLast?_cons_match]
        cases h : (rest.filter (eligibleObjectProperty selection parent init)).getLast? <;>
          simp [h, hraw]

/-- Every non-empty result the object-pattern loop produces is an
`InlinableObjectPattern` wrapper, provided the accumulator only held such
wrappers. -/
theorem findInObjectProperties_shape (selection : Selection) (parent init : Node)
    (hasRestSibling : Bool) :
    ∀ (properties : List Node) (previous : Option Node) (result : Option InlinableCode),
      (∀ r0, result = some r0 → r0.isObjectPatternWrapper = true) →
      ∀ r1,
        findInObjectProperties selection parent init hasRestSibling previous result properties
          = some r1 →
        r1.isObjectPatternWrapper = true := by
  intro properties
  induction properties with
  | nil =>
      intro previous result hres r1 h
      exact hres r1 (by simpa [findInObjectProperties] using h)
  | cons property rest ih =>
      intro previous result hres r1 h
      simp only [findInObjectProperties] at h
      rcases objectPropertyCandidate_cases selection parent init hasRestSibling previous
          rest.head? property with ⟨hc, _⟩ | ⟨r, hc, _, hraw⟩
      · rw [hc] at h
        exact ih (some property) result hres r1 h
      · rw [hc] at h
        refine ih (some property) (some r) ?_ r1 h
        intro r0 hr0
        cases Option.some.inj hr0
        clear h hc hres ih hr0
        cases r
        case InlinableObjectPattern => rfl
        all_goals simp [inlinedPropertyRaw] at hraw

/-- C4: in object-pattern decomposition the property `findInlinableCode`
builds its result from is exactly the last structurally-eligible property in
pattern order, and rest elements are never eligible — so a rest element is
never the selected inlinable element. -/
theorem object_pattern_last_eligible_wins (selection : Selection) (parent init : Node)
    (properties : List Node) (oLoc : Loc) (isVariableDeclarator : Bool) :
    inlinedObjectProperty
        (findInlinableCodeOfId selection parent (Node.objectPattern properties oLoc)
          (some init) isVariableDeclarator)
      = (properties.filter (eligibleObjectProperty selection parent init)).getLast? ∧
    ∀ p ∈ properties.filter (eligibleObjectProperty selection parent init),
      isRestElement p = false := by
  constructor
  · have hchar := findInObjectProperties_last_eligible selection parent init
      (properties.any isRestElement) properties none none
    simp only [findInlinableCodeOfId]
    cases hres : findInObjectProperties selection parent init (properties.any isRestElement)
        none none properties with
    | none =>
        rw [hres] at hchar
        cases hlast : (properties.filter (eligibleObjectProperty selection parent init)).getLast?
          with
        | none => simp [wrapInTopLevelPattern, inlinedObjectProperty, inlinedPropertyRaw]
        | some p =>
            rw [hlast] at hchar
            simp [inlinedPropertyRaw] at hchar
    | some c =>
        have hshape := findInObjectProperties_shape selection parent init
          (properties.any isRestElement) properties none none (by intro r0 h; cases h) c hres
        rw [hres] at hchar
        cases c
        case InlinableObjectPattern child2 initName2 property2 hasRest2 prev2 next2 =>
          cases hlast : (properties.filter (eligibleObjectProperty selection parent init)).getLast?
            with
          | none =>
              rw [hlast] at hchar
              simp [inlinedPropertyRaw] at hchar
          | some p =>
              rw [hlast] at hchar
              simp only [inlinedPropertyRaw] at hchar
              cases isVariableDeclarator <;>
                simp [wrapInTopLevelPattern, inlinedObjectProperty, inlinedPropertyRaw, hchar]
        all_goals simp [InlinableCode.isObjectPatternWrapper] at hshape
  · intro p hp
    obtain ⟨hmem, helig⟩ := List.mem_filter.mp hp
    simp only [eligibleObjectProperty, Bool.and_eq_true] at helig
    obtain ⟨⟨⟨⟨h1, h2⟩, h3⟩, h4⟩, h5⟩ := helig
    simpa using h2

/-- When the initializer renders to no name, the object-pattern loop can
never build a candidate, so it returns its accumulator unchanged. -/
theorem findInObjectProperties_initName_none (selection : Selection) (parent init : Node)
    (hasRestSibling : Bool) (hinit : getInitName init = none) :
    ∀ (properties : List Node) (previous : Option Node),
      findInObjectProperties selection parent init hasRestSibling previous none properties
        = none := by
  intro properties
  induction properties with
  | nil => intro previous; simp [findInObjectProperties]
  | cons property rest ih =>
      intro previous
      rcases objectPropertyCandidate_cases selection parent init hasRestSibling previous
          rest.head? property with ⟨hc, _⟩ | ⟨r, _, he, _⟩
      · simp only [findInObjectProperties, hc]
        exact ih (some property)
      · exfalso
        simp [eligibleObjectProperty, hinit] at he

/-- C7: for an object-pattern declaration whose initializer cannot be
rendered as a name (`getInitName` gives nothing), `findInlinableCode`
yields no `InlinableCode` at all — decomposition fails silently with an
empty result, not with a distinct error kind. -/
theorem unresolvable_init_name_aborts_decomposition (selection : Selection) (parent init : Node)
    (properties : List Node) (oLoc : Loc) (isVariableDeclarator : Bool)
    (hinit : getInitName init = none) :
    findInlinableCodeOfId selection parent (Node.objectPattern properties oLoc) (some init)
      isVariableDeclarator = none := by
  simp only [findInlinableCodeOfId]
  rw [findInObjectProperties_initName_none selection parent init (properties.any isRestElement)
    hinit properties none]
  rfl

/-- Witness for C7: with the initializer `f()` (a call expression renders to
no name) the delegation pattern decomposes to nothing even though the
selected property is otherwise eligible. -/
theorem unresolvable_init_name_aborts_decomposition_witness :
    getInitName (Node.callExpression (.identifier "f" (mkLoc 0 12 0 13)) [] (mkLoc 0 12 0 15))
        = none ∧
      findInlinableCodeOfId (Selection.cursorAt 0 8) delegationScope
          (Node.objectPattern [delegationProperty] (mkLoc 0 6 0 11))
          (some (Node.callExpression (.identifier "f" (mkLoc 0 12 0 13)) [] (mkLoc 0 12 0 15)))
          true
        = none :=
  ⟨by decide,
    unresolvable_init_name_aborts_decomposition (Selection.cursorAt 0 8) delegationScope
      (Node.callExpression (.identifier "f" (mkLoc 0 12 0 13)) [] (mkLoc 0 12 0 15))
      [delegationProperty] (mkLoc 0 6 0 11) true (by decide)⟩

/-- C8 (counterexample): the `InlinableObjectPattern` wrapper does not
report the same `updateIdentifiersWith` output as its wrapped child — it
re-qualifies the replacement code with the initializer name — refuting the
claim that only the delete-range attributes may differ from the child's. -/
theorem composite_delegation_counterexample :
    delegationWrapper.updateIdentifiersWith "a" ≠ delegationChild.updateIdentifiersWith "a" ∧
      delegationWrapper.updateIdentifiersWith "a"
        = [⟨"obj.a", Selection.fromAST (mkLoc 1 2 1 3)⟩] ∧
      delegationChild.updateIdentifiersWith "a"
        = [⟨"a", Selection.fromAST (mkLoc 1 2 1 3)⟩] := by
  refine ⟨by decide, by decide, by decide⟩

/-- C8 (amended): every composite wrapper reports exactly the same
`isRedeclared`, `isExported`, `hasIdentifiersToUpdate` and `valueSelection`
as its wrapped child; the delete-range attributes
(`codeToRemoveSelection`, `shouldExtendSelectionToDeclaration`) and the
reference-rewrite output (`updateIdentifiersWith`, which the object- and
array-pattern wrappers transform) may differ. -/
theorem composite_wrappers_delegate_derived_attributes (child : InlinableCode)
    (previous0 : Node) (next0 : Option Node) (initName : String) (property : Node)
    (hasRestSibling : Bool) (previous next : Option Node) (index : Nat) (element : Node)
    (loc : Loc) :
    ((InlinableCode.SingleDeclaration child).isRedeclared = child.isRedeclared ∧
      (InlinableCode.SingleDeclaration child).isExported = child.isExported ∧
      (InlinableCode.SingleDeclaration child).hasIdentifiersToUpdate
        = child.hasIdentifiersToUpdate ∧
      (InlinableCode.SingleDeclaration child).valueSelection = child.valueSelection) ∧
    ((InlinableCode.MultipleDeclarations child previous0 next0).isRedeclared
        = child.isRedeclared ∧
      (InlinableCode.MultipleDeclarations child previous0 next0).isExported = child.isExported ∧
      (InlinableCode.MultipleDeclarations child previous0 next0).hasIdentifiersToUpdate
        = child.hasIdentifiersToUpdate ∧
      (InlinableCode.MultipleDeclarations child previous0 next0).valueSelection
        = child.valueSelection) ∧
    ((InlinableCode.InlinableObjectPattern child initName property hasRestSibling previous
          next).isRedeclared = child.isRedeclared ∧
      (InlinableCode.InlinableObjectPattern child initName property hasRestSibling previous
          next).isExported = child.isExported ∧
      (InlinableCode.InlinableObjectPattern child initName property hasRestSibling previous
          next).hasIdentifiersToUpdate = child.hasIdentifiersToUpdate ∧
      (InlinableCode.InlinableObjectPattern child initName property hasRestSibling previous
          next).valueSelection = child.valueSelection) ∧
    ((InlinableCode.InlinableArrayPattern child index element previous next).isRedeclared
        = child.isRedeclared ∧
      (InlinableCode.InlinableArrayPattern child index element previous next).isExported
        = child.isExported ∧
      (InlinableCode.InlinableArrayPattern child index element previous
          next).hasIdentifiersToUpdate = child.hasIdentifiersToUpdate ∧
      (InlinableCode.InlinableArrayPattern child index element previous next).valueSelection
        = child.valueSelection) ∧
    ((InlinableCode.InlinableTopLevelPattern child loc).isRedeclared = child.isRedeclared ∧
      (InlinableCode.InlinableTopLevelPattern child loc).isExported = child.isExported ∧
      (InlinableCode.InlinableTopLevelPattern child loc).hasIdentifiersToUpdate
        = child.hasIdentifiersToUpdate ∧
      (InlinableCode.InlinableTopLevelPattern child loc).valueSelection
        = child.valueSelection) :=
  ⟨⟨rfl, rfl, rfl, rfl⟩, ⟨rfl, rfl, rfl, rfl⟩, ⟨rfl, rfl, rfl, rfl⟩, ⟨rfl, rfl, rfl, rfl⟩,
    ⟨rfl, rfl, rfl, rfl⟩⟩

/-- C10 (counterexample): decomposing `const { a: [b, c], ...rest } = obj;`
at `b` builds an `InlinableObjectPattern` wrapper for a property that has a
rest-element sibling and whose value is an array pattern (not an object
pattern), yet `codeToRemoveSelection` is the selection of the element `b`,
not the zero-width cursor at (0,0) — the claim omits that the wrapped child
must itself want to extend to the declaration. -/
theorem rest_sibling_cursor_claim_counterexample :
    isRestElement restSiblingRest = true ∧
      isObjectPattern (objectPropertyValue restSiblingProperty) = false ∧
      (match restSiblingResult with
        | some (.InlinableTopLevelPattern w _) => w.isObjectPatternWrapper
        | _ => false) = true ∧
      (match restSiblingResult with
        | some ic => ic.codeToRemoveSelection
        | none => Selection.cursorAt 9 9) = Selection.fromAST (mkLoc 0 11 0 12) ∧
      Selection.fromAST (mkLoc 0 11 0 12) ≠ Selection.cursorAt 0 0 := by
  refine ⟨by decide, by decide, by decide, by decide, by decide⟩

/-- C10 (amended): for an `InlinableObjectPattern` wrapper over a property
with a rest-element sibling whose value is not an object pattern, provided
the wrapped child reports `shouldExtendSelectionToDeclaration`, the
delete range is the zero-width cursor at (0,0) and the wrapper's own
`shouldExtendSelectionToDeclaration` is false. -/
theorem rest_sibling_keeps_pattern_text (child : InlinableCode) (initName : String)
    (property : Node) (previous next : Option Node)
    (hchild : child.shouldExtendSelectionToDeclaration = true)
    (hvalue : isObjectPattern (objectPropertyValue property) = false) :
    (InlinableCode.InlinableObjectPattern child initName property true previous
        next).codeToRemoveSelection = Selection.cursorAt 0 0 ∧
      (InlinableCode.InlinableObjectPattern child initName property true previous
        next).shouldExtendSelectionToDeclaration = false := by
  constructor
  · simp [InlinableCode.codeToRemoveSelection, hchild, hvalue]
  · simp [InlinableCode.shouldExtendSelectionToDeclaration, hchild]

/-- Witness for the amended C10 on the delegation program's wrapper with a
pretended rest sibling: the leaf child extends to the declaration, the
property's value is an identifier, and the delete range collapses to the
zero-width cursor. -/
theorem rest_sibling_keeps_pattern_text_witness :
    delegationChild.shouldExtendSelectionToDeclaration = true ∧
      isObjectPattern (objectPropertyValue delegationProperty) = false ∧
      ((InlinableCode.InlinableObjectPattern delegationChild "obj" delegationProperty true none
          none).codeToRemoveSelection = Selection.cursorAt 0 0 ∧
        (InlinableCode.InlinableObjectPattern delegationChild "obj" delegationProperty true none
          none).shouldExtendSelectionToDeclaration = false) :=
  ⟨by decide, by decide,
    rest_sibling_keeps_pattern_text delegationChild "obj" delegationProperty none none
      (by decide) (by decide)⟩

/-- C5: a function body with more than one return statement — or whose
single return is not the final statement (an implicit/early return path) —
always fails with `CantInlineFunctionWithMultipleReturns`, whatever the
call-site shapes are. -/
theorem multiple_returns_always_rejected (fn : FunctionToInline)
    (references : List FunctionReference)
    (h : countReturnsList fn.body > 1 ∨
      (countReturnsList fn.body = 1 ∧ lastStatementIsReturn fn.body = false)) :
    inlineFunction fn references
      = Except.error ErrorReason.CantInlineFunctionWithMultipleReturns := by
  rcases h with h1 | ⟨h1, h2⟩
  · simp [inlineFunction, h1]
  · simp [inlineFunction, h1, h2]

/-- Witness for C5 on the two test-suite programs: the two-return body and
the implicit-return body are both rejected, for a call-site reference list
and for a mixed one. -/
theorem multiple_returns_always_rejected_witness :
    (countReturnsList multiReturnBody > 1 ∨
        (countReturnsList multiReturnBody = 1 ∧ lastStatementIsReturn multiReturnBody = false)) ∧
      inlineFunction ⟨multiReturnBody, false⟩ [.callSite]
        = Except.error ErrorReason.CantInlineFunctionWithMultipleReturns ∧
      (countReturnsList implicitReturnBody > 1 ∨
        (countReturnsList implicitReturnBody = 1 ∧
          lastStatementIsReturn implicitReturnBody = false)) ∧
      inlineFunction ⟨implicitReturnBody, false⟩ [.callSite, .valuePosition]
        = Except.error ErrorReason.CantInlineFunctionWithMultipleReturns :=
  ⟨by decide,
    multiple_returns_always_rejected ⟨multiReturnBody, false⟩ [.callSite] (by decide),
    by decide,
    multiple_returns_always_rejected ⟨implicitReturnBody, false⟩ [.callSite, .valuePosition]
      (by decide)⟩

/-- C6: inlining an exported function whose body passes the return checks
and whose references are all call sites rewrites every reference, keeps the
declaration in the output, and reports `CantRemoveExportedFunction` exactly
once. -/
theorem exported_function_kept_and_notice_once (fn : FunctionToInline)
    (references : List FunctionReference)
    (hexp : fn.isExported = true)
    (hret : ¬countReturnsList fn.body > 1)
    (hfinal : (countReturnsList fn.body == 1 && !lastStatementIsReturn fn.body) = false)
    (hcalls : references.any (fun r => r == FunctionReference.valuePosition) = false)
    (hnonempty : references.isEmpty = false) :
    ∃ outcome, inlineFunction fn references = Except.ok outcome ∧
      outcome.rewrittenReferences = references.length ∧
      outcome.declarationRemoved = false ∧
      outcome.notices.count ErrorReason.CantRemoveExportedFunction = 1 := by
  refine ⟨{ rewrittenReferences := references.length
            declarationRemoved := false
            notices := [ErrorReason.CantRemoveExportedFunction] }, ?_, rfl, rfl, by simp⟩
  simp [inlineFunction, hret, hfinal, hcalls, hnonempty, hexp]

/-- Witness for C6 on the exported `sayHello` program with its single call
site. -/
theorem exported_function_kept_and_notice_once_witness :
    exportedSayHello.isExported = true ∧
      (∃ outcome, inlineFunction exportedSayHello [.callSite] = Except.ok outcome ∧
        outcome.rewrittenReferences = [FunctionReference.callSite].length ∧
        outcome.declarationRemoved = false ∧
        outcome.notices.count ErrorReason.CantRemoveExportedFunction = 1) :=
  ⟨by decide,
    exported_function_kept_and_notice_once exportedSayHello [.callSite] (by decide) (by decide)
      (by decide) (by decide) (by decide)⟩

/-- C9: `mergeWithIfStatement` terminates on every finite syntax tree — its
recursion descends only the `alternate` chain, so the fuel-indexed version
of the source's recursion never runs out once the fuel exceeds the
alternate-chain depth, and it computes the total function's result. -/
theorem merge_with_if_statement_terminates {α : Type} [DecidableEq α] (fuel : Nat)
    (s node : MStmt α) (h : alternateChainDepth s < fuel) :
    mergeWithIfStatementFuel fuel s node = some (mergeWithIfStatement s node) := by
  induction fuel generalizing s with
  | zero => exact absurd h (Nat.not_lt_zero _)
  | succ f ih =>
      cases s with
      | ifStmt test consequent alternate =>
          cases alternate with
          | none => rfl
          | some alt =>
              cases alt with
              | ifStmt t2 c2 a2 =>
                  have hd : alternateChainDepth (MStmt.ifStmt t2 c2 a2) < f := by
                    simp only [alternateChainDepth] at h
                    omega
                  simp only [mergeWithIfStatementFuel, mergeWithIfStatement,
                    MStmt.isIfStatement, if_true]
                  rw [ih (MStmt.ifStmt t2 c2 a2) hd]
              | blockStmt body => rfl
              | other tag => rfl
      | blockStmt body => rfl
      | other tag => rfl

/-- A two-link if/else-if chain over numeric tests, for the termination
witness. -/
def mergeChainSample : MStmt Nat :=
  .ifStmt 0 (.other 1) (some (.ifStmt 2 (.other 3) none))

/-- Witness for C9: fuel 5 exceeds the chain depth of the sample and the
fuel-indexed recursion completes with the total function's result. -/
theorem merge_with_if_statement_terminates_witness :
    alternateChainDepth mergeChainSample < 5 ∧
      mergeWithIfStatementFuel 5 mergeChainSample (MStmt.other 7)
        = some (mergeWithIfStatement mergeChainSample (MStmt.other 7)) :=
  ⟨by decide,
    merge_with_if_statement_terminates 5 mergeChainSample (MStmt.other 7) (by decide)⟩
